import Mathlib

/-!
Verification of `core/jni/android_hardware_OverlayProperties.cpp`
(Project-PenguinOS/frameworks_base).

The JNI layer wraps a native `gui::OverlayProperties` value: an ordered
sequence of format/dataspace combinations plus a `supportMixedColorSpaces`
flag.  A null native handle (`nativeObject == 0`) is modelled as `none`.
The capability queries and the null/failure handling are translated from
the C++ source; the parcel encoding (`gui::OverlayProperties::writeToParcel`
and `readFromParcel`, which live in libgui, outside this repository) is
modelled from the spec's wire-format section, with the parcel as a list of
integer-width fields.
-/

/-- One jointly supported pairing: `gui::OverlayProperties::Combination`
with `pixelFormats` and `dataspaces` vectors of `int32_t`. -/
structure Combination where
  pixelFormats : List Int
  dataspaces : List Int
deriving DecidableEq

/-- `gui::OverlayProperties`: ordered combinations plus the
`supportMixedColorSpaces` flag. -/
structure OverlayProperties where
  combinations : List Combination
  supportMixedColorSpaces : Bool
deriving DecidableEq

/-- `HAL_PIXEL_FORMAT_RGBA_FP16` (0x16). -/
def HAL_PIXEL_FORMAT_RGBA_FP16 : Int := 22

/-- `HAL_DATASPACE_BT2020_PQ` = STANDARD_BT2020 | TRANSFER_ST2084 | RANGE_FULL. -/
def HAL_DATASPACE_BT2020_PQ : Int := 163971072

/-- `HAL_PIXEL_FORMAT_RGBA_8888`. -/
def HAL_PIXEL_FORMAT_RGBA_8888 : Int := 1

/-- `HAL_DATASPACE_V0_SRGB` = STANDARD_BT709 | TRANSFER_SRGB | RANGE_FULL. -/
def HAL_DATASPACE_V0_SRGB : Int := 142671872

/-- `std::find(xs.begin(), xs.end(), target) != xs.end()`: linear scan
for membership. -/
def stdFind (xs : List Int) (target : Int) : Bool :=
  match xs with
  | [] => false
  | x :: rest => if x = target then true else stdFind rest target

/-- The range-for loop of `android_hardware_OverlayProperties_supportFp16ForHdr`,
threading the (never written) `properties` object as explicit state: for each
combination `i`, if both `std::find` calls succeed, `return true`; after the
loop, `return false`. -/
def fp16Scan : List Combination → OverlayProperties → Bool × OverlayProperties
  | [], st => (false, st)
  | i :: rest, st =>
    if stdFind i.pixelFormats HAL_PIXEL_FORMAT_RGBA_FP16
        && stdFind i.dataspaces HAL_DATASPACE_BT2020_PQ then
      (true, st)
    else
      fp16Scan rest st

/-- `android_hardware_OverlayProperties_supportFp16ForHdr`: null handle
gives `false`, otherwise scan `properties->combinations`. -/
def android_hardware_OverlayProperties_supportFp16ForHdr
    (properties : Option OverlayProperties) : Bool :=
  match properties with
  | none => false
  | some p => (fp16Scan p.combinations p).1

/-- `android_hardware_OverlayProperties_supportMixedColorSpaces`:
`properties != nullptr && properties->supportMixedColorSpaces`. -/
def android_hardware_OverlayProperties_supportMixedColorSpaces
    (properties : Option OverlayProperties) : Bool :=
  match properties with
  | none => false
  | some p => p.supportMixedColorSpaces

/-- The cross-combination descriptor: FP16 paired with SRGB only, and
BT2020_PQ paired with RGBA8888 only. -/
def crossDescriptor : OverlayProperties :=
  { combinations :=
      [ { pixelFormats := [HAL_PIXEL_FORMAT_RGBA_FP16],
          dataspaces := [HAL_DATASPACE_V0_SRGB] },
        { pixelFormats := [HAL_PIXEL_FORMAT_RGBA_8888],
          dataspaces := [HAL_DATASPACE_BT2020_PQ] } ],
    supportMixedColorSpaces := false }

/-- `Parcel::writeInt32`: append one integer-width field. -/
def writeInt32 (parcel : List Int) (x : Int) : List Int :=
  parcel ++ [x]

/-- `Parcel::writeBool`: a boolean stored in one field. -/
def writeBool (parcel : List Int) (b : Bool) : List Int :=
  writeInt32 parcel (if b then 1 else 0)

/-- `Parcel::writeInt32Vector`: element count, then the elements in order. -/
def writeInt32Vector (parcel : List Int) (xs : List Int) : List Int :=
  xs.foldl writeInt32 (writeInt32 parcel (xs.length : Int))

/-- Modelled from the spec: `gui::OverlayProperties::writeToParcel` is
implemented in libgui (behind `android/gui/OverlayProperties.h`), not in
this repository.  Per the spec's wire format it writes the
`supportMixedColorSpaces` flag as a single boolean-width field, then the
combination count, then for each combination in order its pixel-format
vector and its dataspace vector, each as a count followed by that many
integer identifiers. -/
def writeToParcel (p : OverlayProperties) (parcel : List Int) : List Int :=
  let parcel1 := writeBool parcel p.supportMixedColorSpaces
  let parcel2 := writeInt32 parcel1 (p.combinations.length : Int)
  p.combinations.foldl
    (fun acc c => writeInt32Vector (writeInt32Vector acc c.pixelFormats) c.dataspaces)
    parcel2

/-- The flat encoding of one combination on the wire: pixel-format count and
identifiers, then dataspace count and identifiers. -/
def encodeCombination (c : Combination) : List Int :=
  (c.pixelFormats.length : Int) :: c.pixelFormats ++
    (c.dataspaces.length : Int) :: c.dataspaces

/-- `Parcel::readInt32`: take one field, failing on a truncated stream. -/
def readInt32 (s : List Int) : Option (Int × List Int) :=
  match s with
  | [] => none
  | x :: rest => some (x, rest)

/-- `Parcel::readBool`: one field, nonzero meaning true. -/
def readBool (s : List Int) : Option (Bool × List Int) :=
  (readInt32 s).bind fun xr => some (xr.1 != 0, xr.2)

/-- Read a declared element count; a negative count is a structural error. -/
def readCount (s : List Int) : Option (Nat × List Int) :=
  (readInt32 s).bind fun xr =>
    if xr.1 < 0 then none else some (xr.1.toNat, xr.2)

/-- Read exactly `n` integer fields. -/
def readInt32List : Nat → List Int → Option (List Int × List Int)
  | 0, s => some ([], s)
  | n + 1, s =>
    (readInt32 s).bind fun xr =>
      (readInt32List n xr.2).bind fun ysr => some (xr.1 :: ysr.1, ysr.2)

/-- `Parcel::readInt32Vector`: a count followed by that many elements. -/
def readInt32Vector (s : List Int) : Option (List Int × List Int) :=
  (readCount s).bind fun nr => readInt32List nr.1 nr.2

/-- Read one combination: its pixel-format vector, then its dataspace vector. -/
def readCombination (s : List Int) : Option (Combination × List Int) :=
  (readInt32Vector s).bind fun fr =>
    (readInt32Vector fr.2).bind fun dr =>
      some ({ pixelFormats := fr.1, dataspaces := dr.1 }, dr.2)

/-- Read exactly `n` combinations. -/
def readCombinationList : Nat → List Int → Option (List Combination × List Int)
  | 0, s => some ([], s)
  | n + 1, s =>
    (readCombination s).bind fun cr =>
      (readCombinationList n cr.2).bind fun csr => some (cr.1 :: csr.1, csr.2)

/-- Modelled from the spec: `gui::OverlayProperties::readFromParcel` is
implemented in libgui, not in this repository.  It consumes the same field
order `writeToParcel` produces — flag, combination count, then each
combination — and reports any structural failure (truncated stream,
invalid count) as `none` rather than a part of a descriptor. -/
def readFromParcel (s : List Int) : Option (OverlayProperties × List Int) :=
  (readBool s).bind fun br =>
    (readCount br.2).bind fun nr =>
      (readCombinationList nr.1 nr.2).bind fun cr =>
        some ({ combinations := cr.1, supportMixedColorSpaces := br.1 }, cr.2)

/-- `android_hardware_OverlayProperties_write`: a null native object writes
nothing to the destination parcel. -/
def android_hardware_OverlayProperties_write
    (nativeObject : Option OverlayProperties) (dest : List Int) : List Int :=
  match nativeObject with
  | none => dest
  | some p => writeToParcel p dest

/-- `android_hardware_OverlayProperties_read`: when `readFromParcel` does not
return `NO_ERROR` the freshly allocated object is deleted and the null
handle `0` is returned, modelled as `none`. -/
def android_hardware_OverlayProperties_read
    (s : List Int) : Option OverlayProperties :=
  match readFromParcel s with
  | none => none
  | some (p, _) => some p

/-- Two combinations related by permuting each identifier sequence. -/
def CombPerm (c c' : Combination) : Prop :=
  List.Perm c.pixelFormats c'.pixelFormats ∧ List.Perm c.dataspaces c'.dataspaces

/-- A concrete descriptor used to exercise permutation invariance. -/
def permDescriptorA : OverlayProperties :=
  { combinations :=
      [ { pixelFormats := [HAL_PIXEL_FORMAT_RGBA_FP16, HAL_PIXEL_FORMAT_RGBA_8888],
          dataspaces := [HAL_DATASPACE_BT2020_PQ] },
        { pixelFormats := [], dataspaces := [HAL_DATASPACE_V0_SRGB] } ],
    supportMixedColorSpaces := true }

/-- `permDescriptorA` with combinations reordered and inner lists permuted. -/
def permDescriptorB : OverlayProperties :=
  { combinations :=
      [ { pixelFormats := [], dataspaces := [HAL_DATASPACE_V0_SRGB] },
        { pixelFormats := [HAL_PIXEL_FORMAT_RGBA_8888, HAL_PIXEL_FORMAT_RGBA_FP16],
          dataspaces := [HAL_DATASPACE_BT2020_PQ] } ],
    supportMixedColorSpaces := true }

/-- Intermediate list: `permDescriptorA.combinations` reordered, inner lists
not yet permuted. -/
def permMid : List Combination :=
  [ { pixelFormats := [], dataspaces := [HAL_DATASPACE_V0_SRGB] },
    { pixelFormats := [HAL_PIXEL_FORMAT_RGBA_FP16, HAL_PIXEL_FORMAT_RGBA_8888],
      dataspaces := [HAL_DATASPACE_BT2020_PQ] } ]

-- Helper lemmas ------------------------------------------------------------

/-- `stdFind` decides membership. -/
theorem stdFind_eq_true_iff_mem (xs : List Int) (t : Int) :
    stdFind xs t = true ↔ t ∈ xs := by
  induction xs with
  | nil => simp [stdFind]
  | cons x rest ih =>
    by_cases hx : x = t
    · simp [stdFind, hx]
    · rw [show stdFind (x :: rest) t = stdFind rest t from by simp [stdFind, hx], ih]
      constructor
      · intro h
        exact List.mem_cons_of_mem x h
      · intro h
        rcases List.mem_cons.mp h with h1 | h1
        · exact absurd h1.symm hx
        · exact h1

/-- The scan leaves the state untouched and returns `true` iff some
combination contains both target identifiers. -/
theorem fp16Scan_spec (cs : List Combination) (st : OverlayProperties) :
    (fp16Scan cs st).2 = st ∧
      ((fp16Scan cs st).1 = true ↔
        ∃ c ∈ cs, HAL_PIXEL_FORMAT_RGBA_FP16 ∈ c.pixelFormats ∧
          HAL_DATASPACE_BT2020_PQ ∈ c.dataspaces) := by
  induction cs with
  | nil => simp [fp16Scan]
  | cons c rest ih =>
    by_cases h : stdFind c.pixelFormats HAL_PIXEL_FORMAT_RGBA_FP16
        && stdFind c.dataspaces HAL_DATASPACE_BT2020_PQ
    · refine ⟨by simp [fp16Scan, h], ?_⟩
      have hb := h
      rw [Bool.and_eq_true, stdFind_eq_true_iff_mem, stdFind_eq_true_iff_mem] at hb
      simp [fp16Scan, h]
      exact Or.inl hb
    · have hstep : fp16Scan (c :: rest) st = fp16Scan rest st := by
        simp [fp16Scan, h]
      have hb : ¬ (HAL_PIXEL_FORMAT_RGBA_FP16 ∈ c.pixelFormats ∧
          HAL_DATASPACE_BT2020_PQ ∈ c.dataspaces) := by
        rw [← stdFind_eq_true_iff_mem c.pixelFormats, ← stdFind_eq_true_iff_mem c.dataspaces]
        intro hc
        exact h (by rw [Bool.and_eq_true]; exact hc)
      refine ⟨by rw [hstep]; exact ih.1, ?_⟩
      rw [hstep, ih.2]
      constructor
      · rintro ⟨x, hx, hpx⟩
        exact ⟨x, List.mem_cons_of_mem c hx, hpx⟩
      · rintro ⟨x, hx, hpx⟩
        rcases List.mem_cons.mp hx with h1 | h1
        · subst h1
          exact absurd hpx hb
        · exact ⟨x, h1, hpx⟩

/-- Membership characterisation of the FP16-for-HDR query on a present
descriptor. -/
theorem supportFp16ForHdr_iff (p : OverlayProperties) :
    android_hardware_OverlayProperties_supportFp16ForHdr (some p) = true ↔
      ∃ c ∈ p.combinations, HAL_PIXEL_FORMAT_RGBA_FP16 ∈ c.pixelFormats ∧
        HAL_DATASPACE_BT2020_PQ ∈ c.dataspaces := by
  exact (fp16Scan_spec p.combinations p).2

-- Claim theorems ------------------------------------------------------------

/-- C1: `supportFp16ForHdr` returns true iff some single combination
contains both the FP16 format and the BT2020_PQ dataspace; in particular
the descriptor pairing FP16 with SRGB and PQ with RGBA8888 yields false. -/
theorem c1_supportFp16ForHdr_iff_exists_combination :
    (∀ p : OverlayProperties,
      android_hardware_OverlayProperties_supportFp16ForHdr (some p) = true ↔
        ∃ c ∈ p.combinations, HAL_PIXEL_FORMAT_RGBA_FP16 ∈ c.pixelFormats ∧
          HAL_DATASPACE_BT2020_PQ ∈ c.dataspaces) ∧
    android_hardware_OverlayProperties_supportFp16ForHdr (some crossDescriptor) = false := by
  exact ⟨supportFp16ForHdr_iff, by decide⟩

/-- C5: on a present descriptor, `supportMixedColorSpaces` returns exactly
the `supportMixedColorSpaces` flag; on an absent one it returns false. -/
theorem c5_supportMixedColorSpaces_returns_flag :
    (∀ p : OverlayProperties,
      android_hardware_OverlayProperties_supportMixedColorSpaces (some p)
        = p.supportMixedColorSpaces) ∧
    android_hardware_OverlayProperties_supportMixedColorSpaces none = false := by
  exact ⟨fun p => rfl, rfl⟩

/-- C6: a descriptor with zero combinations is a valid value of the model,
and the combination-based query `supportFp16ForHdr` returns false on it,
whatever the flag. -/
theorem c6_empty_combinations_queries_false :
    ∀ b : Bool,
      android_hardware_OverlayProperties_supportFp16ForHdr
        (some { combinations := [], supportMixedColorSpaces := b }) = false := by
  intro b
  rfl

-- Serialization helper lemmas ----------------------------------------------

/-- Folding `writeInt32` appends the elements in order. -/
theorem foldl_writeInt32 (xs parcel : List Int) :
    xs.foldl writeInt32 parcel = parcel ++ xs := by
  induction xs generalizing parcel with
  | nil => simp
  | cons x rest ih => simp [writeInt32, ih]

/-- A vector write is its length field followed by its elements. -/
theorem writeInt32Vector_eq (parcel xs : List Int) :
    writeInt32Vector parcel xs = parcel ++ (xs.length : Int) :: xs := by
  simp [writeInt32Vector, foldl_writeInt32, writeInt32]

/-- Folding the per-combination writer appends the flat encodings. -/
theorem foldl_encodeCombination (cs : List Combination) (parcel : List Int) :
    cs.foldl
        (fun acc c => writeInt32Vector (writeInt32Vector acc c.pixelFormats) c.dataspaces)
        parcel
      = parcel ++ cs.flatMap encodeCombination := by
  induction cs generalizing parcel with
  | nil => simp
  | cons c rest ih =>
    rw [List.foldl_cons, ih]
    have hstep : writeInt32Vector (writeInt32Vector parcel c.pixelFormats) c.dataspaces
        = parcel ++ encodeCombination c := by
      simp [writeInt32Vector_eq, encodeCombination]
    rw [hstep]
    simp [encodeCombination]

/-- Flat characterisation of `writeToParcel`. -/
theorem writeToParcel_eq (p : OverlayProperties) (parcel : List Int) :
    writeToParcel p parcel
      = parcel ++ (if p.supportMixedColorSpaces then (1 : Int) else 0)
          :: (p.combinations.length : Int) :: p.combinations.flatMap encodeCombination := by
  simp [writeToParcel, writeBool, writeInt32, foldl_encodeCombination]

/-- Reading back a boolean field written as 1 or 0. -/
theorem readBool_boolField (b : Bool) (s : List Int) :
    readBool ((if b then (1 : Int) else 0) :: s) = some (b, s) := by
  cases b <;> rfl

/-- Reading back a non-negative count field. -/
theorem readCount_ofNat (n : Nat) (rest : List Int) :
    readCount ((n : Int) :: rest) = some (n, rest) := by
  have h : ¬ ((n : Int) < 0) := by omega
  have h2 : (n : Int).toNat = n := rfl
  simp [readCount, readInt32, h, h2]

/-- Reading back exactly the elements that were appended. -/
theorem readInt32List_append (xs rest : List Int) :
    readInt32List xs.length (xs ++ rest) = some (xs, rest) := by
  induction xs with
  | nil => rfl
  | cons x xs ih => simp [readInt32List, readInt32, ih]

/-- Reading back a written vector. -/
theorem readInt32Vector_encode (xs rest : List Int) :
    readInt32Vector ((xs.length : Int) :: xs ++ rest) = some (xs, rest) := by
  simp [readInt32Vector, readCount_ofNat, readInt32List_append]

/-- Reading back one encoded combination. -/
theorem readCombination_encode (c : Combination) (rest : List Int) :
    readCombination (encodeCombination c ++ rest) = some (c, rest) := by
  have h1 : encodeCombination c ++ rest
      = (c.pixelFormats.length : Int) :: c.pixelFormats ++
          ((c.dataspaces.length : Int) :: c.dataspaces ++ rest) := by
    simp [encodeCombination]
  rw [h1]
  unfold readCombination
  rw [readInt32Vector_encode]
  simp only [Option.some_bind]
  rw [readInt32Vector_encode]
  simp only [Option.some_bind]

/-- Reading back an encoded combination list. -/
theorem readCombinationList_encode (cs : List Combination) (rest : List Int) :
    readCombinationList cs.length (cs.flatMap encodeCombination ++ rest) = some (cs, rest) := by
  induction cs generalizing rest with
  | nil => rfl
  | cons c cs ih =>
    have h1 : (c :: cs).flatMap encodeCombination ++ rest
        = encodeCombination c ++ (cs.flatMap encodeCombination ++ rest) := by
      simp
    rw [List.length_cons, h1]
    simp [readCombinationList, readCombination_encode, ih]

/-- The reader consumes exactly what the writer produced, leaving any
trailing fields untouched. -/
theorem readFromParcel_writeToParcel (p : OverlayProperties) (rest : List Int) :
    readFromParcel (writeToParcel p [] ++ rest) = some (p, rest) := by
  rw [writeToParcel_eq]
  simp only [List.nil_append, List.cons_append]
  simp [readFromParcel, readBool_boolField, readCount_ofNat, readCombinationList_encode]

/-- An existential over a list transports along `Forall₂` when the relation
carries the predicate across. -/
theorem forall2_exists_iff {α β : Type} (R : α → β → Prop) (P : α → Prop) (Q : β → Prop)
    (hPQ : ∀ a b, R a b → (P a ↔ Q b)) :
    ∀ {l₁ : List α} {l₂ : List β}, List.Forall₂ R l₁ l₂ →
      ((∃ a ∈ l₁, P a) ↔ ∃ b ∈ l₂, Q b) := by
  intro l₁ l₂ h
  induction h with
  | nil => simp
  | cons hr hrest ih =>
    constructor
    · rintro ⟨a, ha, hpa⟩
      rcases List.mem_cons.mp ha with rfl | ha
      · exact ⟨_, List.mem_cons_self _ _, (hPQ _ _ hr).mp hpa⟩
      · obtain ⟨b, hb, hqb⟩ := ih.mp ⟨a, ha, hpa⟩
        exact ⟨b, List.mem_cons_of_mem _ hb, hqb⟩
    · rintro ⟨b, hb, hqb⟩
      rcases List.mem_cons.mp hb with rfl | hb
      · exact ⟨_, List.mem_cons_self _ _, (hPQ _ _ hr).mpr hqb⟩
      · obtain ⟨a, ha, hpa⟩ := ih.mpr ⟨b, hb, hqb⟩
        exact ⟨a, List.mem_cons_of_mem _ ha, hpa⟩

-- Remaining claim theorems ---------------------------------------------------

/-- C2: deserializing the stream produced by serializing a descriptor yields
a field-for-field equal descriptor (same combination order, same inner
sequences, same flag). -/
theorem c2_parcel_round_trip :
    ∀ p : OverlayProperties,
      android_hardware_OverlayProperties_read
        (android_hardware_OverlayProperties_write (some p) []) = some p := by
  intro p
  have h := readFromParcel_writeToParcel p []
  rw [List.append_nil] at h
  simp [android_hardware_OverlayProperties_read,
    android_hardware_OverlayProperties_write, h]

/-- C3: a null descriptor makes both queries return false and makes the
serialize entry point leave the destination parcel untouched. -/
theorem c3_null_descriptor_behaviour :
    android_hardware_OverlayProperties_supportFp16ForHdr none = false ∧
    android_hardware_OverlayProperties_supportMixedColorSpaces none = false ∧
    ∀ dest : List Int, android_hardware_OverlayProperties_write none dest = dest := by
  exact ⟨rfl, rfl, fun dest => rfl⟩

/-- C4: any structural `readFromParcel` failure makes the read entry point
return the distinguished absent result, never a descriptor; in particular a
stream whose declared combination count exceeds the remaining fields fails. -/
theorem c4_read_failure_returns_none :
    (∀ s : List Int, readFromParcel s = none →
      android_hardware_OverlayProperties_read s = none) ∧
    (∀ flag n : Int, 0 < n → readFromParcel [flag, n] = none) := by
  constructor
  · intro s h
    simp [android_hardware_OverlayProperties_read, h]
  · intro flag n hn
    have h0 : readBool [flag, n] = some (flag != 0, [n]) := rfl
    have h1 : readCount [n] = some (n.toNat, []) := by
      have h : ¬ (n < 0) := by omega
      simp [readCount, readInt32, h]
    obtain ⟨k, hk⟩ : ∃ k, n.toNat = k + 1 := by
      have hz : n.toNat ≠ 0 := by
        intro hz
        rw [Int.toNat_eq_zero] at hz
        omega
      exact Nat.exists_eq_succ_of_ne_zero hz
    simp [readFromParcel, h0, h1, hk, readCombinationList, readCombination,
      readInt32Vector, readCount, readInt32]

/-- C4 witness: the stream `[1, 2]` declares two combinations and then ends. -/
theorem c4_witness :
    readFromParcel [(1 : Int), 2] = none ∧
      android_hardware_OverlayProperties_read [(1 : Int), 2] = none := by
  refine ⟨c4_read_failure_returns_none.2 1 2 (by decide), ?_⟩
  exact c4_read_failure_returns_none.1 [1, 2]
    (c4_read_failure_returns_none.2 1 2 (by decide))

/-- C7: the writer emits the flag field, then the combination count, then for
each combination its pixel-format count and identifiers followed by its
dataspace count and identifiers; the reader consumes exactly that order. -/
theorem c7_wire_format_order :
    ∀ (p : OverlayProperties) (rest : List Int),
      writeToParcel p []
        = (if p.supportMixedColorSpaces then (1 : Int) else 0)
            :: (p.combinations.length : Int)
            :: p.combinations.flatMap (fun c =>
                (c.pixelFormats.length : Int) :: c.pixelFormats ++
                  (c.dataspaces.length : Int) :: c.dataspaces) ∧
      readFromParcel (writeToParcel p [] ++ rest) = some (p, rest) := by
  intro p rest
  constructor
  · rw [writeToParcel_eq]
    rfl
  · exact readFromParcel_writeToParcel p rest

/-- C8: permuting the combinations and the identifier sequences inside each
combination changes neither query result. -/
theorem c8_queries_permutation_invariant :
    ∀ (d e : OverlayProperties) (mid : List Combination),
      List.Perm d.combinations mid →
      List.Forall₂ CombPerm mid e.combinations →
      d.supportMixedColorSpaces = e.supportMixedColorSpaces →
      android_hardware_OverlayProperties_supportFp16ForHdr (some d)
        = android_hardware_OverlayProperties_supportFp16ForHdr (some e) ∧
      android_hardware_OverlayProperties_supportMixedColorSpaces (some d)
        = android_hardware_OverlayProperties_supportMixedColorSpaces (some e) := by
  intro d e mid hperm hf hflag
  constructor
  · have hext : ∀ a b : Bool, (a = true ↔ b = true) → a = b := by decide
    apply hext
    rw [supportFp16ForHdr_iff, supportFp16ForHdr_iff]
    refine Iff.trans (exists_congr fun c => and_congr_left fun _ => hperm.mem_iff) ?_
    exact forall2_exists_iff CombPerm _ _
      (fun a b hab => and_congr hab.1.mem_iff hab.2.mem_iff) hf
  · simp [android_hardware_OverlayProperties_supportMixedColorSpaces, hflag]

/-- C8 witness: a concrete reordering with inner permutations preserves both
query results. -/
theorem c8_witness :
    android_hardware_OverlayProperties_supportFp16ForHdr (some permDescriptorA)
      = android_hardware_OverlayProperties_supportFp16ForHdr (some permDescriptorB) ∧
    android_hardware_OverlayProperties_supportMixedColorSpaces (some permDescriptorA)
      = android_hardware_OverlayProperties_supportMixedColorSpaces (some permDescriptorB) := by
  refine c8_queries_permutation_invariant permDescriptorA permDescriptorB permMid ?_ ?_ rfl
  · decide
  · exact List.Forall₂.cons ⟨by decide, by decide⟩
      (List.Forall₂.cons ⟨by decide, by decide⟩ List.Forall₂.nil)

/-- C9: both queries are read-only — the state threaded through the scan
loop comes back unchanged, and each result is a function of the descriptor's
current fields only. -/
theorem c9_queries_read_only :
    ∀ p : OverlayProperties,
      (fp16Scan p.combinations p).2 = p ∧
      android_hardware_OverlayProperties_supportFp16ForHdr (some p)
        = (fp16Scan p.combinations p).1 ∧
      android_hardware_OverlayProperties_supportMixedColorSpaces (some p)
        = p.supportMixedColorSpaces := by
  intro p
  exact ⟨(fp16Scan_spec p.combinations p).1, rfl, rfl⟩

/-- C10: a failed deserialization returns the null sentinel, so every query
on the result yields false and serializing the result is a no-op. -/
theorem c10_failed_read_composes_as_null :
    ∀ (s dest : List Int), readFromParcel s = none →
      android_hardware_OverlayProperties_supportFp16ForHdr
        (android_hardware_OverlayProperties_read s) = false ∧
      android_hardware_OverlayProperties_supportMixedColorSpaces
        (android_hardware_OverlayProperties_read s) = false ∧
      android_hardware_OverlayProperties_write
        (android_hardware_OverlayProperties_read s) dest = dest := by
  intro s dest h
  have hr : android_hardware_OverlayProperties_read s = none := by
    simp [android_hardware_OverlayProperties_read, h]
  rw [hr]
  exact ⟨rfl, rfl, rfl⟩

/-- C10 witness: the truncated stream `[0, 5]` fails to deserialize and the
result behaves as the null descriptor. -/
theorem c10_witness :
    android_hardware_OverlayProperties_supportFp16ForHdr
        (android_hardware_OverlayProperties_read [(0 : Int), 5]) = false ∧
      android_hardware_OverlayProperties_supportMixedColorSpaces
        (android_hardware_OverlayProperties_read [(0 : Int), 5]) = false ∧
      android_hardware_OverlayProperties_write
        (android_hardware_OverlayProperties_read [(0 : Int), 5]) [7] = [7] := by
  exact c10_failed_read_composes_as_null [0, 5] [7] (by decide)
